import Mathlib

/-!
# Verification of the ANTSDR DMA frame-extraction and repacketization pipeline

Shallow embedding of the core of `src/drivers/antsdr_dma/antsdr_dma.c`:
the FPGA frame parser (`antsdr_parse_fpga_frame`), the gap-tracking state
update, the frame accumulation buffer (`antsdr_frame_buffer_add` /
`antsdr_frame_buffer_process`), the payload ring
(`antsdr_ring_put` / `antsdr_ring_get` / `antsdr_ring_return_buffer`),
the frame worker (`antsdr_frame_work`, single-transfer step), the UDP
packetizer fragmentation loop (`antsdr_udp_work`, single-slot step), and
the statistics snapshot (`ANTSDR_IOC_GET_STATS`).

Machine integers are modelled as `Nat` with explicit `% 2^32` where the C
code's `uint32_t` wraparound matters (the gap-tracking arithmetic).  The
statistics counters are modelled as unbounded naturals: every claim about
them concerns increments by one, far from any wrap.  Byte buffers are
`List Nat`; 32-bit little-endian words are turned into byte lists by
`wordsToBytes` where the driver hands word data to the byte-oriented ring.
-/

namespace Antsdr

/-- `#define ANTSDR_MAX_PAYLOAD_SIZE 1360` -/
def ANTSDR_MAX_PAYLOAD_SIZE : Nat := 1360

/-- `#define RING_BUFFER_COUNT 256` -/
def RING_BUFFER_COUNT : Nat := 256

/-- `#define RING_BUFFER_SIZE 1600` -/
def RING_BUFFER_SIZE : Nat := 1600

/-- `#define FRAME_DETECTION_BUFFER_SIZE (64 * 1024)` -/
def FRAME_DETECTION_BUFFER_SIZE : Nat := 64 * 1024

/-- `#define FPGA_HEADER_MARKER_1 0xFEFFFFFF` -/
def FPGA_HEADER_MARKER_1 : Nat := 0xFEFFFFFF

/-- `#define FPGA_HEADER_MARKER_2 0xFFFFFFFE` -/
def FPGA_HEADER_MARKER_2 : Nat := 0xFFFFFFFE

/-- `#define FPGA_FOOTER_MARKER 0xFFFFFFFF` -/
def FPGA_FOOTER_MARKER : Nat := 0xFFFFFFFF

/-- `#define FPGA_LONG_PULSE_WORDS 403` -/
def FPGA_LONG_PULSE_WORDS : Nat := 403

/-- `#define FPGA_SHORT_PULSE_WORDS 53` -/
def FPGA_SHORT_PULSE_WORDS : Nat := 53

/-- One more than the largest `uint32_t` value. -/
def U32 : Nat := 2 ^ 32

/-- `expected_frame_words = dma_dev->pulse_mode ? FPGA_LONG_PULSE_WORDS
: FPGA_SHORT_PULSE_WORDS` (`antsdr_parse_fpga_frame`, line 301). -/
def expectedWords (pulseMode : Bool) : Nat :=
  if pulseMode then FPGA_LONG_PULSE_WORDS else FPGA_SHORT_PULSE_WORDS

/-- A 32-bit little-endian word as its four bytes, as the driver's
byte-oriented ring sees word data (`memcpy` in `antsdr_ring_put`). -/
def wordToBytes (w : Nat) : List Nat :=
  [w % 256, w / 256 % 256, w / 2 ^ 16 % 256, w / 2 ^ 24 % 256]

/-- A word buffer reinterpreted as its byte sequence. -/
def wordsToBytes (ws : List Nat) : List Nat :=
  ws.flatMap wordToBytes

/-- Gap-tracking state: device fields `last_frame_counter` (`uint32_t`),
`first_frame_received` (`bool`), `missing_frame_count` (`unsigned int`,
32-bit on the target). -/
structure GapState where
  lastCounter : Nat
  firstSeen : Bool
  missingCount : Nat
deriving DecidableEq, Repr

/-- Gap-based missing frame detection, `antsdr_parse_fpga_frame` lines
333–353: on the first valid frame the state is seeded; afterwards
`expected_counter = last_frame_counter + 1` (`uint32_t`, hence mod `2^32`),
a counter above it adds the difference to `missing_frame_count`, a counter
below it is only logged, and `last_frame_counter` is set to the counter in
every non-first case. -/
def gapUpdate (g : GapState) (counter : Nat) : GapState :=
  if !g.firstSeen then
    { lastCounter := counter, firstSeen := true, missingCount := g.missingCount }
  else
    let expected := (g.lastCounter + 1) % U32
    if counter > expected then
      { lastCounter := counter, firstSeen := g.firstSeen,
        missingCount := (g.missingCount + (counter - expected)) % U32 }
    else
      { g with lastCounter := counter }

/-- Gap state after `antsdr_dma_start_streaming` (lines 1373–1375):
`missing_frame_count = 0; last_frame_counter = 0;
first_frame_received = false;`. -/
def freshGapState : GapState :=
  { lastCounter := 0, firstSeen := false, missingCount := 0 }

/-- A sequence of valid-frame counters fed to the gap tracker in order. -/
def feedCounters (g : GapState) (cs : List Nat) : GapState :=
  cs.foldl gapUpdate g

/-- Payload ring state: fields `ring_size`, `ring_buffer_size`,
`ring_buffers` (each slot's current bytes), `ring_head`, `ring_tail`,
`ring_count` of `struct antsdr_dma_dev`. -/
structure RingState where
  size : Nat
  slotSize : Nat
  slots : List (List Nat)
  head : Nat
  tail : Nat
  count : Nat
deriving DecidableEq, Repr

/-- Outcome of `antsdr_ring_put`: `0`, `-EINVAL`, or `-ENOSPC`. -/
inductive PutResult where
  | ok
  | einval
  | enospc
deriving DecidableEq, Repr

/-- `memcpy(ring_buffer, data, size)` into a pre-sized slot: the first
`data.length` bytes are replaced, the rest of the slot keeps its old
bytes. -/
def writeSlot (slot : List Nat) (data : List Nat) : List Nat :=
  data ++ slot.drop data.length

/-- `antsdr_ring_put` (lines 500–534): reject data larger than a slot
(`-EINVAL`), reject a full ring (`-ENOSPC`, nothing changed), otherwise
copy the data into the slot at `ring_head`, advance the head modulo the
ring size, and increment the count. -/
def ringPut (r : RingState) (data : List Nat) : PutResult × RingState :=
  if data.length > r.slotSize then
    (.einval, r)
  else if r.count ≥ r.size then
    (.enospc, r)
  else
    (.ok, { r with
      slots := r.slots.set r.head (writeSlot (r.slots.getD r.head []) data),
      head := (r.head + 1) % r.size,
      count := r.count + 1 })

/-- `antsdr_ring_get` (lines 536–559): on a non-empty ring return the slot
at `ring_tail` (as its index, modelling the returned pointer into the
ring) together with the reported size, which is always
`ring_buffer_size` — not the number of bytes the producer stored.  The
tail is not advanced. -/
def ringGet (r : RingState) : Option (Nat × Nat) :=
  if r.count = 0 then none else some (r.tail, r.slotSize)

/-- `antsdr_ring_return_buffer` (lines 561–576): advance the tail and
decrement the count if the ring is non-empty. -/
def ringReturnBuffer (r : RingState) : RingState :=
  if r.count > 0 then
    { r with tail := (r.tail + 1) % r.size, count := r.count - 1 }
  else r

/-- Ring state after `antsdr_ring_init` (lines 448–483): 256 slots of
1600 bytes, head = tail = count = 0.  The freshly `kmalloc`ed slot
contents are indeterminate; the model starts them empty. -/
def ringInit : RingState :=
  { size := RING_BUFFER_COUNT, slotSize := RING_BUFFER_SIZE,
    slots := List.replicate RING_BUFFER_COUNT [], head := 0, tail := 0, count := 0 }

/-- `words[i] == FPGA_HEADER_MARKER_1 || words[i] == FPGA_HEADER_MARKER_2`. -/
def isHeaderWord (w : Nat) : Bool :=
  w == FPGA_HEADER_MARKER_1 || w == FPGA_HEADER_MARKER_2

/-- The marker scan of `antsdr_parse_fpga_frame` (lines 304–315): one
pass over the words keeping the first header position and the last
footer position. -/
def scanLoop (ws : List Nat) (i : Nat) (hp fp : Option Nat) : Option Nat × Option Nat :=
  match ws with
  | [] => (hp, fp)
  | w :: rest =>
    let hp' := match hp with
      | none => if isHeaderWord w then some i else none
      | some x => some x
    let fp' := if w == FPGA_FOOTER_MARKER then some i else fp
    scanLoop rest (i + 1) hp' fp'

/-- First-header and last-footer positions of a transfer's words
(`header_pos`, `footer_pos`; `-1` becomes `none`). -/
def scanMarkers (ws : List Nat) : Option Nat × Option Nat :=
  scanLoop ws 0 none none

/-- Frame accumulation buffer: device fields `frame_detection_buffer` /
`frame_buffer_used` / `frames_accumulated`.  All data the driver adds is
whole transfers of word data, so the content is modelled at word
granularity; `frame_buffer_used` (bytes) is `4 * words.length`. -/
structure FrameBuf where
  words : List Nat
  framesAccumulated : Nat
deriving DecidableEq, Repr

/-- `antsdr_frame_buffer_add` (lines 604–632): if appending would exceed
the buffer size, reset the buffer (`used = 0`, `frames_accumulated = 0`)
and fail; otherwise append and count the transfer. -/
def frameBufferAdd (b : FrameBuf) (ws : List Nat) : Bool × FrameBuf :=
  if 4 * b.words.length + 4 * ws.length > FRAME_DETECTION_BUFFER_SIZE then
    (false, { words := [], framesAccumulated := 0 })
  else
    (true, { words := b.words ++ ws, framesAccumulated := b.framesAccumulated + 1 })

/-- Aggregate statistics, `struct antsdr_dma_stats` (lines 148–156):
exactly these seven fields; the device's `missing_frame_count` is not
among them. -/
structure Stats where
  transfersCompleted : Nat
  bytesTransferred : Nat
  udpPacketsSent : Nat
  errors : Nat
  validFrames : Nat
  invalidFrames : Nat
  extractedFrames : Nat
deriving DecidableEq, Repr

/-- The parts of `struct antsdr_dma_dev` the extraction pipeline
reads and writes. -/
structure DevState where
  pulseMode : Bool
  gap : GapState
  fbuf : FrameBuf
  ring : RingState
  stats : Stats
deriving DecidableEq, Repr

/-- The scan loop of `antsdr_frame_buffer_process` (lines 671–722):
`for (i = 0; i < word_count - 1; i++)`, at each header checking for a
footer exactly `expected` words on; on a hit the span minus first and
last word — `payload_len = (expected_frame_size - 2) * 4`, which still
contains the counter word — is put into the ring, the valid/extracted
counters are bumped only if the put succeeded, and `i` skips past the
frame; a miss only searches a forward window for logging.  `fuel`
bounds the recursion; `i` strictly increases, so `wc` fuel is enough. -/
def bufLoop (ws : List Nat) (wc expected : Nat) :
    Nat → Nat → RingState → Stats → Nat → RingState × Stats × Nat
  | 0, _, ring, st, found => (ring, st, found)
  | fuel + 1, i, ring, st, found =>
    if i + 1 ≥ wc then (ring, st, found)
    else if isHeaderWord (ws.getD i 0) then
      if i + expected ≤ wc then
        if ws.getD (i + expected - 1) 0 == FPGA_FOOTER_MARKER then
          let payloadBytes := wordsToBytes ((ws.drop (i + 1)).take (expected - 2))
          match ringPut ring payloadBytes with
          | (.ok, ring') =>
            bufLoop ws wc expected fuel (i + expected) ring'
              { st with validFrames := st.validFrames + 1,
                        extractedFrames := st.extractedFrames + 1 }
              (found + 1)
          | (_, ring') =>
            bufLoop ws wc expected fuel (i + expected) ring' st found
        else
          bufLoop ws wc expected fuel (i + 1) ring st found
      else
        bufLoop ws wc expected fuel (i + 1) ring st found
    else
      bufLoop ws wc expected fuel (i + 1) ring st found

/-- `antsdr_frame_buffer_process` (lines 646–732): nothing happens below
8 buffered bytes; otherwise the buffer is scanned for frames, and it is
always cleared afterwards.  The gap-tracking state is not touched.
Returns the updated device state and `frames_found`. -/
def frameBufferProcess (d : DevState) : DevState × Nat :=
  if 4 * d.fbuf.words.length < 8 then (d, 0)
  else
    let wc := d.fbuf.words.length
    let expected := if d.pulseMode then FPGA_LONG_PULSE_WORDS else FPGA_SHORT_PULSE_WORDS
    let (ring', st', found) := bufLoop d.fbuf.words wc expected wc 0 d.ring d.stats 0
    ({ d with fbuf := { words := [], framesAccumulated := 0 },
              ring := ring', stats := st' }, found)

/-- Classification of the exits of `antsdr_parse_fpga_frame`.  The C
function returns only `0`/`-1`; the constructors name its distinct exit
paths.  `recoveredViaBuffer` is the `return 0` at line 400, reached when
only a header was found but the triggered accumulation-buffer pass
recovered frames — on that path the out-parameters `payload` /
`payload_len` are never assigned. -/
inductive ParseResult where
  | valid (payloadWords : List Nat) (frameCounter : Nat)
  | frameTooShort
  | lengthMismatch
  | headerOnly
  | noMarkers
  | recoveredViaBuffer
deriving DecidableEq, Repr

/-- `antsdr_parse_fpga_frame` (lines 282–412) as a state transformer.
With both markers found: a span (`footer_pos - header_pos + 1`, `int`
arithmetic, hence `Int` here) equal to the mode's expected word count is
a valid frame — the gap state is updated from the counter word
`words[footer_pos - 1]` (guarded by `footer_pos > header_pos + 1`), and
the payload is the span minus the header word and the last two words; a
different span is a length mismatch that changes nothing.  With only a
header, the transfer is added to the accumulation buffer, and when the
add succeeds and a threshold (3 transfers or half the buffer) is
reached, the buffer is reprocessed.  With no markers, nothing changes. -/
def parseFpgaFrame (d : DevState) (ws : List Nat) : ParseResult × DevState :=
  let expected := expectedWords d.pulseMode
  match scanMarkers ws with
  | (some h, some f) =>
    if (f : Int) - (h : Int) + 1 = (expected : Int) then
      let d1 := if f > h + 1 then { d with gap := gapUpdate d.gap (ws.getD (f - 1) 0) } else d
      if (expected : Int) ≥ 3 then
        (.valid ((ws.drop (h + 1)).take (expected - 3))
          (if f > h + 1 then ws.getD (f - 1) 0 else 0), d1)
      else
        (.frameTooShort, d1)
    else
      (.lengthMismatch, d)
  | (some _, none) =>
    let (ok, fb1) := frameBufferAdd d.fbuf ws
    if ok then
      if fb1.framesAccumulated ≥ 3 ∨
          4 * fb1.words.length ≥ FRAME_DETECTION_BUFFER_SIZE / 2 then
        let (d2, found) := frameBufferProcess { d with fbuf := fb1 }
        if found > 0 then (.recoveredViaBuffer, d2) else (.headerOnly, d2)
      else
        (.headerOnly, { d with fbuf := fb1 })
    else
      (.headerOnly, { d with fbuf := fb1 })
  | _ => (.noMarkers, d)

/-- One iteration of the worker loop in `antsdr_frame_work`
(lines 1069–1121) on a single raw transfer: parse it; on a valid frame
put the payload bytes into the ring and bump valid/extracted counters on
success or the error counter on failure; on any failed parse bump
`invalid_frames`.  On the `recoveredViaBuffer` exit the C code passes the
never-assigned `payload` pointer to `antsdr_ring_put`; the indeterminate
bytes it would copy are the `stale` parameter. -/
def frameWorkStep (d : DevState) (ws : List Nat) (stale : List Nat) : DevState :=
  match parseFpgaFrame d ws with
  | (.valid payloadWords _, d1) =>
    match ringPut d1.ring (wordsToBytes payloadWords) with
    | (.ok, ring') =>
      { d1 with ring := ring',
                stats := { d1.stats with
                  validFrames := d1.stats.validFrames + 1,
                  extractedFrames := d1.stats.extractedFrames + 1 } }
    | (_, ring') =>
      { d1 with ring := ring',
                stats := { d1.stats with errors := d1.stats.errors + 1 } }
  | (.recoveredViaBuffer, d1) =>
    match ringPut d1.ring stale with
    | (.ok, ring') =>
      { d1 with ring := ring',
                stats := { d1.stats with
                  validFrames := d1.stats.validFrames + 1,
                  extractedFrames := d1.stats.extractedFrames + 1 } }
    | (_, ring') =>
      { d1 with ring := ring',
                stats := { d1.stats with errors := d1.stats.errors + 1 } }
  | (_, d1) =>
    { d1 with stats := { d1.stats with invalidFrames := d1.stats.invalidFrames + 1 } }

/-- One outgoing UDP packet as built by `antsdr_udp_work`
(lines 1181–1200): the header fields relevant to fragmentation and the
fragment's payload bytes. -/
structure Fragment where
  frameId : Nat
  fragmentOffset : Nat
  fragmentCount : Nat
  fragmentIndex : Nat
  payloadLength : Nat
  framePayloadTotal : Nat
  bytes : List Nat
deriving DecidableEq, Repr

/-- The fragment loop of `antsdr_udp_work` (lines 1181–1229):
`for (fragment_idx = 0; fragment_idx < fragments_needed; fragment_idx++)`
with `current_fragment_size = min(payload_len - fragment_offset,
ANTSDR_MAX_PAYLOAD_SIZE)` and `fragment_offset += current_fragment_size`.
`fuel` is the number of remaining iterations (`fragments_needed -
fragment_idx`). -/
def fragLoop (payload : List Nat) (payloadLen needed fid : Nat) :
    Nat → Nat → Nat → List Fragment
  | 0, _, _ => []
  | fuel + 1, idx, off =>
    { frameId := fid, fragmentOffset := off, fragmentCount := needed,
      fragmentIndex := idx,
      payloadLength := min (payloadLen - off) ANTSDR_MAX_PAYLOAD_SIZE,
      framePayloadTotal := payloadLen,
      bytes := (payload.drop off).take (min (payloadLen - off) ANTSDR_MAX_PAYLOAD_SIZE) } ::
    fragLoop payload payloadLen needed fid fuel (idx + 1)
      (off + min (payloadLen - off) ANTSDR_MAX_PAYLOAD_SIZE)

/-- The per-slot fragmentation of `antsdr_udp_work`:
`fragments_needed = (payload_len + ANTSDR_MAX_PAYLOAD_SIZE - 1) /
ANTSDR_MAX_PAYLOAD_SIZE` (line 1175) and the loop above, with one frame
id per slot. -/
def buildFragments (payload : List Nat) (payloadLen fid : Nat) : List Fragment :=
  let needed := (payloadLen + ANTSDR_MAX_PAYLOAD_SIZE - 1) / ANTSDR_MAX_PAYLOAD_SIZE
  fragLoop payload payloadLen needed fid needed 0 0

/-- The fragment list the spec describes, written from its words: the `j`-th
of `ceil(len / MAX_PAYLOAD)` fragments carries offset `j * MAX_PAYLOAD`,
length `min (len - j * MAX_PAYLOAD) MAX_PAYLOAD`, and the corresponding
slice of the payload. -/
def idealFragment (p : List Nat) (fid len needed j : Nat) : Fragment :=
  { frameId := fid, fragmentOffset := j * ANTSDR_MAX_PAYLOAD_SIZE,
    fragmentCount := needed, fragmentIndex := j,
    payloadLength := min (len - j * ANTSDR_MAX_PAYLOAD_SIZE) ANTSDR_MAX_PAYLOAD_SIZE,
    framePayloadTotal := len,
    bytes := (p.drop (j * ANTSDR_MAX_PAYLOAD_SIZE)).take
      (min (len - j * ANTSDR_MAX_PAYLOAD_SIZE) ANTSDR_MAX_PAYLOAD_SIZE) }

/-- Spec-side fragment list for a whole payload (see `idealFragment`). -/
def idealFragments (p : List Nat) (fid : Nat) : List Fragment :=
  let len := p.length
  let needed := (len + ANTSDR_MAX_PAYLOAD_SIZE - 1) / ANTSDR_MAX_PAYLOAD_SIZE
  (List.range needed).map (idealFragment p fid len needed)

/-- Concatenation of fragment bytes in emission (= offset) order. -/
def fragmentsJoin (fs : List Fragment) : List Nat :=
  fs.flatMap Fragment.bytes

/-- The per-slot step of `antsdr_udp_work` (lines 1157–1229): `ring_get`
a slot, take the reported size as `payload_len`, **return the ring buffer
early** (line 1172, before any fragment bytes are copied), and only then
read the slot's bytes to build the fragments.  `interfere` stands for
whatever ring operations other contexts perform between the early release
and the copies — the ring lock is not held across that span in the C
code. -/
def udpSlotStep (r : RingState) (interfere : RingState → RingState) (fid : Nat) :
    Option (List Fragment × RingState) :=
  match ringGet r with
  | none => none
  | some (idx, sz) =>
    let r1 := ringReturnBuffer r
    let r2 := interfere r1
    let payload := (r2.slots.getD idx []).take sz
    some (buildFragments payload sz fid, r2)

/-- `n` consecutive `antsdr_ring_put` calls of the same data; returns how
many succeeded and the final ring state. -/
def putN (data : List Nat) : Nat → RingState → Nat × RingState
  | 0, r => (0, r)
  | n + 1, r =>
    match ringPut r data with
    | (.ok, r') =>
      let (k, r'') := putN data n r'
      (k + 1, r'')
    | (_, r') =>
      let (k, r'') := putN data n r'
      (k, r'')

/-- `ANTSDR_IOC_GET_STATS` (ioctl lines 1592–1600): the snapshot handed
to the operator is a copy of `dma_dev->stats` and nothing else. -/
def getStatsSnapshot (d : DevState) : Stats :=
  d.stats

/-! ### Concrete example states used by witnesses and counterexamples -/

/-- All-zero statistics, as after `ANTSDR_IOC_RESET_STATS`. -/
def zeroStats : Stats :=
  ⟨0, 0, 0, 0, 0, 0, 0⟩

/-- Empty accumulation buffer. -/
def emptyFrameBuf : FrameBuf :=
  ⟨[], 0⟩

/-- A well-formed short-mode frame: header, 50 payload words of value 1,
counter word 5, footer — 53 words. -/
def exShortFrame53 : List Nat :=
  0xFEFFFFFF :: (List.replicate 50 1 ++ [5, 0xFFFFFFFF])

/-- A corrupted capture: header and footer present but spanning 54 words
instead of the expected 53. -/
def exShortFrame54 : List Nat :=
  0xFEFFFFFF :: (List.replicate 51 1 ++ [5, 0xFFFFFFFF])

/-- A second well-formed short-mode frame (payload words 2, counter 7). -/
def exShortFrame53b : List Nat :=
  0xFEFFFFFF :: (List.replicate 50 2 ++ [7, 0xFFFFFFFF])

/-- Freshly started short-mode device: fresh gap state, empty buffers. -/
def exFreshDev : DevState :=
  ⟨false, freshGapState, emptyFrameBuf, ringInit, zeroStats⟩

/-- Short-mode device whose payload ring has been filled to capacity by
256 successful puts. -/
def exFullRingDev : DevState :=
  { exFreshDev with ring := (putN [1] 256 ringInit).2 }

/-- Short-mode device whose accumulation buffer holds one complete frame
accumulated from two header-only transfers. -/
def exC4Dev : DevState :=
  ⟨false, freshGapState, ⟨exShortFrame53b, 2⟩, ringInit, zeroStats⟩

/-- Short-mode device with a complete frame (counter 5) sitting in the
accumulation buffer and a fresh (never-seeded) gap state. -/
def exC5Dev : DevState :=
  ⟨false, freshGapState, ⟨exShortFrame53, 2⟩, ringInit, zeroStats⟩

/-- Ring holding exactly one pending payload, `[7]`, produced by one
successful put on the initial ring. -/
def exC6Ring : RingState :=
  (ringPut ringInit [7]).2

/-- Producer interference: 256 consecutive puts of `[9]`, as the DMA
worker may perform between the packetizer's early release and its
fragment copies. -/
def exC6Interfere : RingState → RingState :=
  fun r => (putN [9] 256 r).2

/-- Two devices identical except for the cumulative missing-frame count. -/
def exC9DevA : DevState :=
  { exFreshDev with stats := ⟨1, 212, 3, 0, 2, 1, 2⟩ }

/-- See `exC9DevA`: same statistics, different missing-frame count. -/
def exC9DevB : DevState :=
  { exC9DevA with gap := { exC9DevA.gap with missingCount := 5 } }

/-! ### Helper lemmas -/

theorem wordsToBytes_length (ws : List Nat) :
    (wordsToBytes ws).length = 4 * ws.length := by
  induction ws with
  | nil => rfl
  | cons w rest ih =>
    simp only [wordsToBytes, List.flatMap_cons, List.length_append] at *
    simp [wordToBytes, ih]
    omega

theorem expectedWords_ge (m : Bool) : 53 ≤ expectedWords m := by
  cases m <;> decide

theorem expectedWords_le (m : Bool) : expectedWords m ≤ 403 := by
  cases m <;> decide

theorem scanLoop_footer_lt (ws : List Nat) :
    ∀ (i : Nat) (hp fp : Option Nat) (hinv : ∀ j, fp = some j → j < i)
      (h' : Option Nat) (f : Nat),
      scanLoop ws i hp fp = (h', some f) → f < i + ws.length := by
  induction ws with
  | nil =>
    intro i hp fp hinv h' f heq
    simp only [scanLoop, Prod.mk.injEq] at heq
    have := hinv f heq.2
    simpa using this
  | cons w rest ih =>
    intro i hp fp hinv h' f heq
    simp only [scanLoop] at heq
    have hinv' : ∀ j, (if (w == FPGA_FOOTER_MARKER) = true then some i else fp) = some j →
        j < i + 1 := by
      intro j hj
      by_cases hw : (w == FPGA_FOOTER_MARKER) = true
      · rw [if_pos hw] at hj
        simp only [Option.some.injEq] at hj
        omega
      · rw [if_neg hw] at hj
        exact Nat.lt_succ_of_lt (hinv j hj)
    have hlt := ih (i + 1) _ _ hinv' h' f heq
    simp only [List.length_cons]
    omega

theorem scanMarkers_footer_lt (ws : List Nat) (h' : Option Nat) (f : Nat)
    (heq : scanMarkers ws = (h', some f)) : f < ws.length := by
  have := scanLoop_footer_lt ws 0 none none (by intro j hj; cases hj) h' f heq
  simpa using this

theorem parse_valid_eq (d : DevState) (ws : List Nat) (h f : Nat)
    (hscan : scanMarkers ws = (some h, some f))
    (hspan : (f : Int) - (h : Int) + 1 = (expectedWords d.pulseMode : Int)) :
    parseFpgaFrame d ws =
      (.valid ((ws.drop (h + 1)).take (expectedWords d.pulseMode - 3)) (ws.getD (f - 1) 0),
       { d with gap := gapUpdate d.gap (ws.getD (f - 1) 0) }) := by
  have hge : 53 ≤ expectedWords d.pulseMode := expectedWords_ge _
  have hf : h + 1 < f := by omega
  have h3 : (3 : Int) ≤ (expectedWords d.pulseMode : Int) := by
    exact_mod_cast Nat.le_trans (by omega) hge
  simp only [parseFpgaFrame, hscan, hspan, if_true, eq_self_iff_true, ge_iff_le, h3,
    gt_iff_lt, hf, if_pos]

theorem parse_mismatch_eq (d : DevState) (ws : List Nat) (h f : Nat)
    (hscan : scanMarkers ws = (some h, some f))
    (hspan : (f : Int) - (h : Int) + 1 ≠ (expectedWords d.pulseMode : Int)) :
    parseFpgaFrame d ws = (.lengthMismatch, d) := by
  simp only [parseFpgaFrame, hscan, hspan, if_false]

theorem frameBufferProcess_gap (d : DevState) :
    (frameBufferProcess d).1.gap = d.gap := by
  unfold frameBufferProcess
  split
  · rfl
  · rfl

theorem parse_nonvalid_gap (d : DevState) (ws : List Nat)
    (hnv : ∀ pw c, (parseFpgaFrame d ws).1 ≠ ParseResult.valid pw c) :
    (parseFpgaFrame d ws).2.gap = d.gap := by
  rcases hsc : scanMarkers ws with ⟨hp, fp⟩
  cases hp with
  | none =>
    simp only [parseFpgaFrame, hsc]
  | some h =>
    cases fp with
    | none =>
      simp only [parseFpgaFrame, hsc]
      split
      · split
        · split <;> simp [frameBufferProcess_gap]
        · rfl
      · rfl
    | some f =>
      by_cases hsp : (f : Int) - (h : Int) + 1 = (expectedWords d.pulseMode : Int)
      · exfalso
        have hv := parse_valid_eq d ws h f hsc hsp
        exact hnv _ _ (by rw [hv])
      · rw [parse_mismatch_eq d ws h f hsc hsp]

theorem needed_mul_ge (len : Nat) :
    len ≤ (len + ANTSDR_MAX_PAYLOAD_SIZE - 1) / ANTSDR_MAX_PAYLOAD_SIZE *
      ANTSDR_MAX_PAYLOAD_SIZE := by
  simp only [ANTSDR_MAX_PAYLOAD_SIZE]
  omega

theorem idx_mul_lt (len j : Nat)
    (h : j < (len + ANTSDR_MAX_PAYLOAD_SIZE - 1) / ANTSDR_MAX_PAYLOAD_SIZE) :
    j * ANTSDR_MAX_PAYLOAD_SIZE < len := by
  simp only [ANTSDR_MAX_PAYLOAD_SIZE] at *
  omega

theorem fragLoop_eq_ideal (p : List Nat) (len needed fid : Nat)
    (hneed : needed = (len + ANTSDR_MAX_PAYLOAD_SIZE - 1) / ANTSDR_MAX_PAYLOAD_SIZE) :
    ∀ (fuel idx : Nat), fuel + idx = needed →
      fragLoop p len needed fid fuel idx (idx * ANTSDR_MAX_PAYLOAD_SIZE) =
        (List.range fuel).map (fun j => idealFragment p fid len needed (idx + j)) := by
  intro fuel
  induction fuel with
  | zero =>
    intro idx hsum
    simp [fragLoop]
  | succ fuel ih =>
    intro idx hsum
    have hidx : idx < needed := by omega
    have hlt : idx * ANTSDR_MAX_PAYLOAD_SIZE < len := idx_mul_lt len idx (hneed ▸ hidx)
    simp only [fragLoop]
    rw [List.range_succ_eq_map, List.map_cons, List.map_map]
    refine congrArg₂ List.cons ?_ ?_
    · simp [idealFragment]
    · by_cases hlast : len - idx * ANTSDR_MAX_PAYLOAD_SIZE ≤ ANTSDR_MAX_PAYLOAD_SIZE
      · have hfuel : fuel = 0 := by
          simp only [ANTSDR_MAX_PAYLOAD_SIZE] at hneed hlast hlt
          omega
        subst hfuel
        simp [fragLoop]
      · have hsz : min (len - idx * ANTSDR_MAX_PAYLOAD_SIZE) ANTSDR_MAX_PAYLOAD_SIZE =
            ANTSDR_MAX_PAYLOAD_SIZE := by omega
        rw [hsz]
        have hoff : idx * ANTSDR_MAX_PAYLOAD_SIZE + ANTSDR_MAX_PAYLOAD_SIZE =
            (idx + 1) * ANTSDR_MAX_PAYLOAD_SIZE := by ring
        rw [hoff, ih (idx + 1) (by omega)]
        refine List.map_congr_left ?_
        intro a _
        simp only [Function.comp]
        congr 1
        omega

theorem fragLoop_join (p : List Nat) (len needed fid : Nat) :
    ∀ (fuel idx off : Nat), len - off ≤ fuel * ANTSDR_MAX_PAYLOAD_SIZE →
      fragmentsJoin (fragLoop p len needed fid fuel idx off) =
        (p.drop off).take (len - off) := by
  intro fuel
  induction fuel with
  | zero =>
    intro idx off hle
    have h0 : len - off = 0 := by simpa using hle
    simp [fragLoop, fragmentsJoin, h0]
  | succ fuel ih =>
    intro idx off hle
    simp only [fragLoop, fragmentsJoin, List.flatMap_cons]
    have hrem : len - (off + min (len - off) ANTSDR_MAX_PAYLOAD_SIZE) ≤
        fuel * ANTSDR_MAX_PAYLOAD_SIZE := by
      simp only [ANTSDR_MAX_PAYLOAD_SIZE] at *
      omega
    have hjoin := ih (idx + 1) (off + min (len - off) ANTSDR_MAX_PAYLOAD_SIZE) hrem
    simp only [fragmentsJoin] at hjoin
    rw [hjoin]
    have hdd : p.drop (off + min (len - off) ANTSDR_MAX_PAYLOAD_SIZE) =
        (p.drop off).drop (min (len - off) ANTSDR_MAX_PAYLOAD_SIZE) := by
      rw [List.drop_drop, Nat.add_comm]
    have hsub : len - (off + min (len - off) ANTSDR_MAX_PAYLOAD_SIZE) =
        len - off - min (len - off) ANTSDR_MAX_PAYLOAD_SIZE := by omega
    rw [hdd, hsub, ← List.take_add]
    congr 1
    omega

/-! ### Claim theorems -/

/-- C1 (amended): for every transfer whose words contain a start marker
and an end marker with the span from the first start marker to the last
end marker equal to `expected_words(mode)`, frame extraction succeeds and
returns the payload beginning one word after the start marker, of exactly
`expected_words(mode) - 3` words, i.e. `(expected_words(mode) - 3) * 4`
bytes (start marker, counter word and end marker excluded); and —
provided the payload ring is not full — the `valid_frames` and
`extracted_frames` counters each increase by exactly 1 and the payload is
queued.  (On a full ring the code drops the frame and increments `errors`
instead; see the counterexample.) -/
theorem c1_valid_frame_extraction_amended (d : DevState) (ws : List Nat)
    (h f : Nat) (stale : List Nat)
    (hscan : scanMarkers ws = (some h, some f))
    (hspan : (f : Int) - (h : Int) + 1 = (expectedWords d.pulseMode : Int))
    (hslot : d.ring.slotSize = RING_BUFFER_SIZE)
    (hcount : d.ring.count < d.ring.size) :
    (parseFpgaFrame d ws).1 =
      ParseResult.valid ((ws.drop (h + 1)).take (expectedWords d.pulseMode - 3))
        (ws.getD (f - 1) 0)
    ∧ ((ws.drop (h + 1)).take (expectedWords d.pulseMode - 3)).length =
        expectedWords d.pulseMode - 3
    ∧ (wordsToBytes ((ws.drop (h + 1)).take (expectedWords d.pulseMode - 3))).length =
        (expectedWords d.pulseMode - 3) * 4
    ∧ (frameWorkStep d ws stale).stats.validFrames = d.stats.validFrames + 1
    ∧ (frameWorkStep d ws stale).stats.extractedFrames = d.stats.extractedFrames + 1
    ∧ (frameWorkStep d ws stale).ring.count = d.ring.count + 1 := by
  have hpe := parse_valid_eq d ws h f hscan hspan
  have hflt : f < ws.length := scanMarkers_footer_lt ws _ f hscan
  have hge := expectedWords_ge d.pulseMode
  have hle := expectedWords_le d.pulseMode
  have hlen : ((ws.drop (h + 1)).take (expectedWords d.pulseMode - 3)).length =
      expectedWords d.pulseMode - 3 := by
    simp only [List.length_take, List.length_drop]
    omega
  have hblen : (wordsToBytes ((ws.drop (h + 1)).take (expectedWords d.pulseMode - 3))).length =
      (expectedWords d.pulseMode - 3) * 4 := by
    rw [wordsToBytes_length, hlen]
    omega
  have hnb : ¬ ((wordsToBytes ((ws.drop (h + 1)).take (expectedWords d.pulseMode - 3))).length
      > d.ring.slotSize) := by
    rw [hblen, hslot]
    simp only [RING_BUFFER_SIZE, gt_iff_lt, not_lt]
    omega
  have hnc : ¬ (d.ring.count ≥ d.ring.size) := by omega
  refine ⟨by rw [hpe], hlen, hblen, ?_, ?_, ?_⟩ <;>
    simp only [frameWorkStep, hpe, ringPut, hnb, hnc, if_false, ge_iff_le, gt_iff_lt,
      if_neg, ite_false]

/-- C1 witness: a fresh short-mode device fed one well-formed 53-word
frame gains exactly one valid and one extracted frame. -/
theorem c1_valid_frame_extraction_witness :
    (frameWorkStep exFreshDev exShortFrame53 []).stats.validFrames =
      exFreshDev.stats.validFrames + 1
  ∧ (frameWorkStep exFreshDev exShortFrame53 []).stats.extractedFrames =
      exFreshDev.stats.extractedFrames + 1 :=
  ⟨(c1_valid_frame_extraction_amended exFreshDev exShortFrame53 0 52 []
      (by decide) (by decide) (by decide) (by decide)).2.2.2.1,
   (c1_valid_frame_extraction_amended exFreshDev exShortFrame53 0 52 []
      (by decide) (by decide) (by decide) (by decide)).2.2.2.2.1⟩

/-- C1 counterexample: on a device whose payload ring is full, a transfer
holding a well-formed frame (span from first start marker to last end
marker equal to the expected 53 words) does NOT increase `valid_frames`
or `extracted_frames` — the frame is dropped and `errors` is incremented
— refuting the unconditional counter clause of the claim. -/
theorem c1_full_ring_counterexample :
    scanMarkers exShortFrame53 = (some 0, some 52)
  ∧ ((52 : Int) - (0 : Int) + 1 = (expectedWords exFullRingDev.pulseMode : Int))
  ∧ (frameWorkStep exFullRingDev exShortFrame53 []).stats.validFrames ≠
      exFullRingDev.stats.validFrames + 1
  ∧ (frameWorkStep exFullRingDev exShortFrame53 []).stats.extractedFrames ≠
      exFullRingDev.stats.extractedFrames + 1
  ∧ (frameWorkStep exFullRingDev exShortFrame53 []).stats.errors =
      exFullRingDev.stats.errors + 1 := by
  set_option maxRecDepth 100000 in decide

/-- C3 (amended): the first valid frame seeds `last_counter` without
comparison.  On each subsequent valid frame with counter `c`, **provided
`last_counter + 1` does not wrap around 2^32**: if `c > last_counter + 1`
then `missing_count` increases by `c - last_counter - 1` (modulo 2^32,
as it is a 32-bit counter), and if `c ≤ last_counter + 1` (which covers
out-of-order counters) `missing_count` is unchanged; `last_counter` is
set to `c` in every case.  The sequence `[5, 6, 8, 9]` yields
`missing_count = 1`, and `[5, 7, 6]` yields `missing_count = 1` with no
decrement on the third frame.  (Without the no-wraparound proviso the
claim fails; see the counterexample.) -/
theorem c3_gap_tracking_amended :
    (∀ (g : GapState) (c : Nat), g.firstSeen = false →
      gapUpdate g c =
        { lastCounter := c, firstSeen := true, missingCount := g.missingCount })
  ∧ (∀ (g : GapState) (c : Nat), g.firstSeen = true → g.lastCounter + 1 < U32 →
      (c > g.lastCounter + 1 →
        gapUpdate g c =
          { lastCounter := c, firstSeen := true,
            missingCount := (g.missingCount + (c - g.lastCounter - 1)) % U32 })
      ∧ (c ≤ g.lastCounter + 1 →
        gapUpdate g c =
          { lastCounter := c, firstSeen := true, missingCount := g.missingCount }))
  ∧ (feedCounters freshGapState [5, 6, 8, 9]).missingCount = 1
  ∧ (feedCounters freshGapState [5, 7]).missingCount = 1
  ∧ (feedCounters freshGapState [5, 7, 6]).missingCount = 1
  ∧ (feedCounters freshGapState [5, 7, 6]).lastCounter = 6 := by
  refine ⟨?_, ?_, by decide, by decide, by decide, by decide⟩
  · intro g c hfs
    simp [gapUpdate, hfs]
  · intro g c hfs hnw
    obtain ⟨lastC, firstS, missingC⟩ := g
    simp only at hfs hnw
    subst hfs
    have hmod : (lastC + 1) % U32 = lastC + 1 := Nat.mod_eq_of_lt hnw
    constructor
    · intro hgt
      simp only at hgt
      have hgt' : c > (lastC + 1) % U32 := by omega
      have hsub : c - (lastC + 1) = c - lastC - 1 := by omega
      simp [gapUpdate, hmod, hgt', hsub]
      intro hc
      exact absurd hc (by omega)
    · intro hle
      simp only at hle
      have hng : ¬ (c > (lastC + 1) % U32) := by omega
      simp [gapUpdate, hng]

/-- C3 witness: from seeded state `(last_counter = 5, missing = 0)`,
counter 8 raises `missing_count` to `(0 + (8 - 5 - 1)) % 2^32 = 2`. -/
theorem c3_gap_tracking_witness :
    gapUpdate ⟨5, true, 0⟩ 8 =
      { lastCounter := 8, firstSeen := true, missingCount := (0 + (8 - 5 - 1)) % U32 } :=
  (c3_gap_tracking_amended.2.1 ⟨5, true, 0⟩ 8 rfl (by decide)).1 (by decide)

/-- C3 counterexample: with `last_counter = 2^32 - 1` (seedable, since
the counter word of a valid frame may be `0xFFFFFFFF`), the next frame
with counter 1 satisfies `c ≤ last_counter`, so the claim says
`missing_count` is unchanged — but the code's 32-bit `expected_counter`
wraps to 0 and `missing_count` increases by 1. -/
theorem c3_wraparound_counterexample :
    (1 : Nat) ≤ (⟨U32 - 1, true, 0⟩ : GapState).lastCounter
  ∧ (gapUpdate ⟨U32 - 1, true, 0⟩ 1).missingCount ≠
      (⟨U32 - 1, true, 0⟩ : GapState).missingCount
  ∧ (gapUpdate ⟨U32 - 1, true, 0⟩ 1).missingCount = 1 := by
  decide

/-- C4 (code bug): the accumulation-buffer reprocessing pass does NOT use
the same extraction rule as the direct extractor.  On a short-mode buffer
holding one complete 53-word frame it emits exactly one valid frame, but
the queued payload is `(expected_words - 2) * 4 = 204` bytes — the
counter word (here 7, visible as the last four payload bytes) is
included — instead of the direct extractor's
`(expected_words - 3) * 4 = 200` bytes. -/
theorem c4_bufferprocess_includes_counter_bug :
    (frameBufferProcess exC4Dev).2 = 1
  ∧ (frameBufferProcess exC4Dev).1.stats.validFrames = 1
  ∧ (frameBufferProcess exC4Dev).1.stats.extractedFrames = 1
  ∧ ((frameBufferProcess exC4Dev).1.ring.slots.getD 0 []).length =
      (expectedWords false - 2) * 4
  ∧ ((frameBufferProcess exC4Dev).1.ring.slots.getD 0 []).length ≠
      (expectedWords false - 3) * 4
  ∧ ((frameBufferProcess exC4Dev).1.ring.slots.getD 0 []).drop 200 = wordToBytes 7 := by
  set_option maxRecDepth 100000 in decide

/-- C5 (amended): the gap-tracking state is updated exactly once per
valid frame recognized by the direct extractor (`antsdr_parse_fpga_frame`
with both markers and matching span) and never on a failed parse; frames
recovered by the accumulation-buffer reprocessing pass do NOT update it. -/
theorem c5_gap_update_amended :
    (∀ (d : DevState) (ws : List Nat) (h f : Nat),
      scanMarkers ws = (some h, some f) →
      (f : Int) - (h : Int) + 1 = (expectedWords d.pulseMode : Int) →
      (parseFpgaFrame d ws).2.gap = gapUpdate d.gap (ws.getD (f - 1) 0))
  ∧ (∀ (d : DevState) (ws : List Nat),
      (∀ pw c, (parseFpgaFrame d ws).1 ≠ ParseResult.valid pw c) →
      (parseFpgaFrame d ws).2.gap = d.gap)
  ∧ (∀ d : DevState, (frameBufferProcess d).1.gap = d.gap) := by
  refine ⟨?_, parse_nonvalid_gap, frameBufferProcess_gap⟩
  intro d ws h f hscan hspan
  rw [parse_valid_eq d ws h f hscan hspan]

/-- C5 witness: parsing one well-formed frame performs exactly the
`gapUpdate` step on the counter word. -/
theorem c5_gap_update_witness :
    (parseFpgaFrame exFreshDev exShortFrame53).2.gap =
      gapUpdate exFreshDev.gap (exShortFrame53.getD 51 0) :=
  c5_gap_update_amended.1 exFreshDev exShortFrame53 0 52 (by decide) (by decide)

/-- C5 counterexample: the reprocessing pass recovers one valid frame
(`frames_found = 1`, `valid_frames` incremented) from a fresh device's
accumulation buffer, yet the gap-tracking state is not updated — it stays
unseeded (`first_seen = false`), refuting "updated exactly once for every
valid frame ... including frames recovered by the Accumulation Buffer
reprocessing pass". -/
theorem c5_bufferprocess_no_gap_update_counterexample :
    (frameBufferProcess exC5Dev).2 = 1
  ∧ (frameBufferProcess exC5Dev).1.stats.validFrames = 1
  ∧ (frameBufferProcess exC5Dev).1.gap = exC5Dev.gap
  ∧ (frameBufferProcess exC5Dev).1.gap.firstSeen = false := by
  set_option maxRecDepth 100000 in decide

/-- C6 (code bug): `antsdr_udp_work` releases a ring slot before copying
its bytes ("Return ring buffer early"), so a slot IS reused while the
consumer still reads from it.  Concretely: the ring holds one payload
`[7]` in slot 0; the consumer's `ring_get` returns slot 0; after the
early release, 256 producer puts of `[9]` all succeed and the 256th
overwrites slot 0; the packetizer then copies `[9]` — not the `[7]` it
was handed — into its outgoing fragments. -/
theorem c6_early_release_overwrite_bug :
    ringGet exC6Ring = some (0, RING_BUFFER_SIZE)
  ∧ exC6Ring.slots.getD 0 [] = [7]
  ∧ (putN [9] 256 (ringReturnBuffer exC6Ring)).1 = 256
  ∧ ((putN [9] 256 (ringReturnBuffer exC6Ring)).2.slots.getD 0 []) = [9]
  ∧ udpSlotStep exC6Ring exC6Interfere 0 =
      some (buildFragments [9] RING_BUFFER_SIZE 0,
        (putN [9] 256 (ringReturnBuffer exC6Ring)).2) := by
  set_option maxRecDepth 1000000 in decide

/-- C7 (amended): a put on a full ring fails without blocking or
overwriting, leaving the entire ring state — every slot's bytes, head,
tail and count — exactly as before; a put **of at most the slot capacity
(1600 bytes)** on a non-full ring stores the data in the head slot and
increments the count by 1.  (An oversized put fails with `-EINVAL` even
on a non-full ring; see the counterexample and note that the long-mode
reprocessing pass really performs such 1604-byte puts.) -/
theorem c7_ring_put_amended (r : RingState) (data : List Nat) :
    (r.count ≥ r.size →
      (ringPut r data).1 ≠ PutResult.ok ∧ (ringPut r data).2 = r)
  ∧ (r.count < r.size → data.length ≤ r.slotSize →
      ringPut r data =
        (PutResult.ok,
         { r with
            slots := r.slots.set r.head (writeSlot (r.slots.getD r.head []) data),
            head := (r.head + 1) % r.size,
            count := r.count + 1 })) := by
  constructor
  · intro hfull
    by_cases hlen : data.length > r.slotSize
    · simp [ringPut, hlen]
    · simp [ringPut, hlen, hfull]
  · intro hnf hlen
    have h1 : ¬ data.length > r.slotSize := by omega
    have h2 : ¬ r.count ≥ r.size := by omega
    simp [ringPut, h1, h2]

set_option maxRecDepth 1000000 in
/-- C7 witness: the 257th put on the capacity-256 ring fails and the ring
state is exactly unchanged. -/
theorem c7_ring_put_witness :
    (ringPut (putN [1] 256 ringInit).2 [2]).1 ≠ PutResult.ok
  ∧ (ringPut (putN [1] 256 ringInit).2 [2]).2 = (putN [1] 256 ringInit).2 :=
  (c7_ring_put_amended (putN [1] 256 ringInit).2 [2]).1 (by decide)

/-- C7 counterexample: on the freshly initialized (empty, hence non-full)
ring, a put of 1604 bytes — the payload size the long-mode reprocessing
pass actually produces — fails with `-EINVAL`, stores nothing and leaves
the count at 0, refuting "puts on a non-full ring store the data and
increment the count by 1". -/
theorem c7_oversized_put_counterexample :
    ringInit.count < ringInit.size
  ∧ (ringPut ringInit (List.replicate 1604 0)).1 ≠ PutResult.ok
  ∧ (ringPut ringInit (List.replicate 1604 0)).2 = ringInit
  ∧ (ringPut ringInit (List.replicate 1604 0)).2.count ≠ ringInit.count + 1 := by
  set_option maxRecDepth 100000 in decide

/-- C8: a transfer with both markers present but a span different from
the mode's expected word count is classified as a length mismatch, the
parse changes nothing, and the worker increments `invalid_frames` by
exactly 1 — no payload enters the ring and nothing is added to the
accumulation buffer. -/
theorem c8_length_mismatch_discard (d : DevState) (ws : List Nat)
    (h f : Nat) (stale : List Nat)
    (hscan : scanMarkers ws = (some h, some f))
    (hspan : (f : Int) - (h : Int) + 1 ≠ (expectedWords d.pulseMode : Int)) :
    parseFpgaFrame d ws = (ParseResult.lengthMismatch, d)
  ∧ frameWorkStep d ws stale =
      { d with stats := { d.stats with invalidFrames := d.stats.invalidFrames + 1 } }
  ∧ (frameWorkStep d ws stale).ring = d.ring
  ∧ (frameWorkStep d ws stale).fbuf = d.fbuf
  ∧ (frameWorkStep d ws stale).stats.validFrames = d.stats.validFrames := by
  have hpe := parse_mismatch_eq d ws h f hscan hspan
  have hw : frameWorkStep d ws stale =
      { d with stats := { d.stats with invalidFrames := d.stats.invalidFrames + 1 } } := by
    simp only [frameWorkStep, hpe]
  exact ⟨hpe, hw, by rw [hw], by rw [hw], by rw [hw]⟩

/-- C8 witness: a 54-word span in short mode is discarded as a length
mismatch with `invalid_frames` going from 0 to 1. -/
theorem c8_length_mismatch_witness :
    parseFpgaFrame exFreshDev exShortFrame54 = (ParseResult.lengthMismatch, exFreshDev)
  ∧ frameWorkStep exFreshDev exShortFrame54 [] =
      { exFreshDev with stats :=
          { exFreshDev.stats with
              invalidFrames := exFreshDev.stats.invalidFrames + 1 } }
  ∧ (frameWorkStep exFreshDev exShortFrame54 []).ring = exFreshDev.ring
  ∧ (frameWorkStep exFreshDev exShortFrame54 []).fbuf = exFreshDev.fbuf
  ∧ (frameWorkStep exFreshDev exShortFrame54 []).stats.validFrames =
      exFreshDev.stats.validFrames :=
  c8_length_mismatch_discard exFreshDev exShortFrame54 0 53 []
    (by decide) (by decide)

/-- C9 (amended): the statistics snapshot returned by
`ANTSDR_IOC_GET_STATS` contains transfers completed, bytes transferred,
packets sent, errors and the valid/invalid/extracted frame counts, but
NOT the cumulative missing-frame count — `missing_frame_count` is a
separate device field outside `struct antsdr_dma_stats`, reported only in
the per-packet wire header. -/
theorem c9_stats_snapshot_amended (d : DevState) (m : Nat) :
    getStatsSnapshot d = d.stats
  ∧ (getStatsSnapshot d).transfersCompleted = d.stats.transfersCompleted
  ∧ (getStatsSnapshot d).bytesTransferred = d.stats.bytesTransferred
  ∧ (getStatsSnapshot d).udpPacketsSent = d.stats.udpPacketsSent
  ∧ (getStatsSnapshot d).errors = d.stats.errors
  ∧ (getStatsSnapshot d).validFrames = d.stats.validFrames
  ∧ (getStatsSnapshot d).invalidFrames = d.stats.invalidFrames
  ∧ (getStatsSnapshot d).extractedFrames = d.stats.extractedFrames
  ∧ getStatsSnapshot { d with gap := { d.gap with missingCount := m } } =
      getStatsSnapshot d :=
  ⟨rfl, rfl, rfl, rfl, rfl, rfl, rfl, rfl, rfl⟩

/-- C9 counterexample: two device states that differ only in the
cumulative missing-frame count produce identical statistics snapshots, so
the snapshot cannot contain the missing-frame count. -/
theorem c9_snapshot_misses_missing_count_counterexample :
    exC9DevA.gap.missingCount ≠ exC9DevB.gap.missingCount
  ∧ getStatsSnapshot exC9DevA = getStatsSnapshot exC9DevB := by
  decide

/-- C10: `ring_get` on a non-empty ring reports the fixed slot capacity
`ring_buffer_size` (1600 bytes after init) as the size — not the number
of bytes the corresponding put stored — and the packetizer consequently
fragments every slot as a payload of exactly that capacity. -/
theorem c10_get_reports_slot_capacity :
    (∀ r : RingState, r.count ≠ 0 → ringGet r = some (r.tail, r.slotSize))
  ∧ (∀ (r : RingState) (data : List Nat) (r' : RingState),
      ringPut r data = (PutResult.ok, r') →
      ringGet r' = some (r'.tail, r.slotSize))
  ∧ (∀ (r : RingState) (fid : Nat), r.count ≠ 0 →
      udpSlotStep r id fid =
        some (buildFragments
          (((ringReturnBuffer r).slots.getD r.tail []).take r.slotSize)
          r.slotSize fid, ringReturnBuffer r))
  ∧ ringInit.slotSize = RING_BUFFER_SIZE
  ∧ ringGet (ringPut ringInit (wordsToBytes (List.replicate 50 1))).2 =
      some (0, RING_BUFFER_SIZE) := by
  have hget : ∀ r : RingState, r.count ≠ 0 → ringGet r = some (r.tail, r.slotSize) := by
    intro r hc
    simp [ringGet, hc]
  refine ⟨hget, ?_, ?_, rfl, by set_option maxRecDepth 1000000 in decide⟩
  · intro r data r' hput
    unfold ringPut at hput
    by_cases h1 : data.length > r.slotSize
    · rw [if_pos h1] at hput
      exact absurd (congrArg Prod.fst hput) (by simp)
    · rw [if_neg h1] at hput
      by_cases h2 : r.count ≥ r.size
      · rw [if_pos h2] at hput
        exact absurd (congrArg Prod.fst hput) (by simp)
      · rw [if_neg h2] at hput
        have hr' := (Prod.mk.injEq _ _ _ _).mp hput |>.2
        rw [← hr']
        exact hget _ (by simp)
  · intro r fid hc
    unfold udpSlotStep
    rw [hget r hc]
    rfl

/-- C10 witness: after storing only 3 bytes in the initial ring, `get`
reports the 1600-byte slot capacity. -/
theorem c10_get_reports_slot_capacity_witness :
    ringGet (ringPut ringInit [1, 2, 3]).2 =
      some ((ringPut ringInit [1, 2, 3]).2.tail, ringInit.slotSize) :=
  c10_get_reports_slot_capacity.2.1 ringInit [1, 2, 3] (ringPut ringInit [1, 2, 3]).2
    (by set_option maxRecDepth 10000 in decide)

/-- C2: for every payload slot the packetizer consumes (payload bytes
`p`, logical length `p.length`), the fragment loop emits exactly
`ceil(len / 1360)` fragments, all carrying the same frame id, with
offsets `0, 1360, 2720, ...`, each fragment's `payload_length` equal to
`min (len - offset) 1360`, and the concatenation of fragment bytes in
offset order equal to the original payload; a payload of length
`3 * 1360 - 10 = 4070` yields exactly 3 fragments with
`fragment_count = 3`. -/
theorem c2_fragmentation (p : List Nat) (fid : Nat) :
    buildFragments p p.length fid = idealFragments p fid
  ∧ fragmentsJoin (buildFragments p p.length fid) = p
  ∧ (buildFragments p p.length fid).length =
      (p.length + ANTSDR_MAX_PAYLOAD_SIZE - 1) / ANTSDR_MAX_PAYLOAD_SIZE
  ∧ (buildFragments p p.length fid).map Fragment.frameId =
      List.replicate ((p.length + ANTSDR_MAX_PAYLOAD_SIZE - 1) / ANTSDR_MAX_PAYLOAD_SIZE) fid
  ∧ (buildFragments (List.replicate 4070 0) 4070 7).length = 3
  ∧ (buildFragments (List.replicate 4070 0) 4070 7).map Fragment.fragmentCount = [3, 3, 3]
  ∧ (buildFragments (List.replicate 4070 0) 4070 7).map Fragment.fragmentOffset =
      [0, 1360, 2720]
  ∧ (buildFragments (List.replicate 4070 0) 4070 7).map Fragment.payloadLength =
      [1360, 1360, 1350] := by
  have hideal : buildFragments p p.length fid = idealFragments p fid := by
    have h := fragLoop_eq_ideal p p.length
      ((p.length + ANTSDR_MAX_PAYLOAD_SIZE - 1) / ANTSDR_MAX_PAYLOAD_SIZE) fid rfl
      ((p.length + ANTSDR_MAX_PAYLOAD_SIZE - 1) / ANTSDR_MAX_PAYLOAD_SIZE) 0 (by omega)
    simp only [Nat.zero_mul, Nat.zero_add] at h
    unfold buildFragments idealFragments
    exact h
  have hjoin : fragmentsJoin (buildFragments p p.length fid) = p := by
    have h := fragLoop_join p p.length
      ((p.length + ANTSDR_MAX_PAYLOAD_SIZE - 1) / ANTSDR_MAX_PAYLOAD_SIZE) fid
      ((p.length + ANTSDR_MAX_PAYLOAD_SIZE - 1) / ANTSDR_MAX_PAYLOAD_SIZE) 0 0
      (by simpa using needed_mul_ge p.length)
    simp only [Nat.sub_zero, List.drop_zero, List.take_length] at h
    unfold buildFragments
    exact h
  refine ⟨hideal, hjoin, ?_, ?_,
    by set_option maxRecDepth 100000 in decide,
    by set_option maxRecDepth 100000 in decide,
    by set_option maxRecDepth 100000 in decide,
    by set_option maxRecDepth 100000 in decide⟩
  · rw [hideal]
    unfold idealFragments
    simp
  · rw [hideal]
    unfold idealFragments
    rw [List.map_map]
    have hconst : (Fragment.frameId ∘
        idealFragment p fid p.length
          ((p.length + ANTSDR_MAX_PAYLOAD_SIZE - 1) / ANTSDR_MAX_PAYLOAD_SIZE)) =
        fun _ => fid := by
      funext j
      rfl
    rw [hconst]
    simp

end Antsdr
